import Mathlib

/-!
# M-DMA scatter transfer example (`main.c`)

A shallow embedding of `main.c`: the buffers `dst`, `src` and `REFERENCE`, the
helper `printArrayToUART`, the verification by `memcmp`, and `main` itself as a
deterministic step function over its statements, with the hardware (return
codes of the initialisation calls, interrupt status readings, the memory the
DMA engine leaves behind) as an environment.

Machine words are natural numbers; the casts to `uint32_t` are explicit
reductions modulo `2 ^ 32`.
-/

namespace MdmaScatter

/-! ## Buffers of `main` -/

/-- The `uint32_t dst[]` array of `main` as initialised: eight zero words. -/
def dstInit : List Nat := [0, 0, 0, 0, 0, 0, 0, 0]

/-- The value of `(uint32_t) &dst[i]` when `dst` is placed at address `dstAddr`:
elements are four bytes wide and the cast truncates to 32 bits. -/
def addrOfDst (dstAddr i : Nat) : Nat := (dstAddr + 4 * i) % 4294967296

/-- The `uint32_t src[]` array of `main`: sixteen words, alternating target
address and value. -/
def src (dstAddr : Nat) : List Nat :=
  [addrOfDst dstAddr 2, 0, addrOfDst dstAddr 7, 1,
   addrOfDst dstAddr 0, 2, addrOfDst dstAddr 1, 3,
   addrOfDst dstAddr 5, 4, addrOfDst dstAddr 4, 5,
   addrOfDst dstAddr 3, 6, addrOfDst dstAddr 6, 7]

/-- The `const uint32_t REFERENCE[]` array of `main`. -/
def REFERENCE : List Nat := [2, 3, 0, 6, 5, 4, 7, 1]

/-- The (target, value) pairs that the flat word array holds, in order; a
trailing odd word is not a pair. -/
def pairsOf : List Nat → List (Nat × Nat)
  | t :: v :: rest => (t, v) :: pairsOf rest
  | _ => []

/-! ## Memory comparison -/

/-- The four bytes of a 32-bit word in memory order (little endian). -/
def wordBytes (w : Nat) : List Nat :=
  [w % 256, (w / 256) % 256, (w / 65536) % 256, (w / 16777216) % 256]

/-- The bytes of a word array in memory order. -/
def memBytes : List Nat → List Nat
  | [] => []
  | w :: ws => wordBytes w ++ memBytes ws

/-- C `memcmp` over the first `n` bytes of two byte sequences: zero when they
agree, otherwise the difference of the first pair of differing bytes. A
sequence shorter than `n` ends the comparison. -/
def memcmp : List Nat → List Nat → Nat → Int
  | x :: xs, y :: ys, n + 1 => if x = y then memcmp xs ys n else (x : Int) - (y : Int)
  | _, _, _ => 0

/-- The value of `sizeof(dst)`: eight words of four bytes. -/
def sizeofDst : Nat := 32

/-- The condition of the verification `if` in `main`:
`memcmp((void*) dst, (void*) REFERENCE, sizeof(dst)) == 0`. -/
def verifyEq (dst : List Nat) : Bool :=
  memcmp (memBytes dst) (memBytes REFERENCE) sizeofDst == 0

/-! ## Scatter transfer -/

/-- The slot of an `n`-word `dst` whose address is `target`, if there is one. -/
def slotOf (dstAddr n target : Nat) : Option Nat :=
  (List.range n).find? (fun i => addrOfDst dstAddr i == target)

/-- Modelled from the spec: one element of a scatter transfer, performed by the
DMA engine and not by code in `main.c`. "Each pair means write this 4-byte
value to this destination address": the value goes to the `dst` slot the target
address names; a target outside `dst` leaves `dst` as it is. -/
def scatterWrite (dstAddr : Nat) (dst : List Nat) (target value : Nat) : List Nat :=
  match slotOf dstAddr dst.length target with
  | some i => dst.set i value
  | none => dst

/-- Modelled from the spec: the scatter transfer of the DMA engine, which is
hardware and not code in `main.c`. The pairs of the source stream are applied
in order. -/
def scatterTransfer (dstAddr : Nat) (dst : List Nat) : List (Nat × Nat) → List Nat
  | [] => dst
  | (t, v) :: rest => scatterTransfer dstAddr (scatterWrite dstAddr dst t v) rest

/-- Modelled from the spec: a transfer that performs only the pairs selected by
`sel` (pair `k` is performed when `sel k` holds), in order; the DMA engine is
hardware and not code in `main.c`. -/
def scatterSelected (dstAddr : Nat) (sel : Nat → Bool) :
    Nat → List Nat → List (Nat × Nat) → List Nat
  | _, dst, [] => dst
  | k, dst, (t, v) :: rest =>
      scatterSelected dstAddr sel (k + 1)
        (if sel k then scatterWrite dstAddr dst t v else dst) rest

/-! ## Console formatting -/

/-- The lower-case hexadecimal digits of a number, as `printf` produces them
for an `x` conversion without flags. -/
def hexDigits (v : Nat) : String := String.mk (Nat.toDigits 16 v)

/-- C `printf` conversion `%#x` of `(unsigned int) v`: the alternative form
puts `0x` in front of a nonzero result only; zero is printed as `0`. -/
def fmtHashX (v : Nat) : String :=
  let u := v % 4294967296
  if u = 0 then "0" else "0x" ++ hexDigits u

/-- C `printf` conversion `%08x` of `(unsigned int) v`: hexadecimal digits,
padded on the left with zeros to a width of eight. -/
def fmt08x (v : Nat) : String :=
  let d := Nat.toDigits 16 (v % 4294967296)
  String.mk (List.replicate (8 - d.length) '0' ++ d)

/-- The `for` loop of `printArrayToUART`, from index `i`: while `i < num`
it prints `", %#x"` of `array[i]`. `out` is the text printed so far. A read
past the end of the list stands for memory the model does not hold and
yields `0`. -/
def printLoop (array : List Nat) (num : Nat) (i : Nat) (out : String) : String :=
  if i < num then
    printLoop array num (i + 1) (out ++ ", " ++ fmtHashX (array.getD i 0))
  else out
termination_by num - i

/-- The function `printArrayToUART`: the text it sends to the console. A
null pointer is `none`. -/
def printArrayToUART (array : Option (List Nat)) (num : Nat) (arrayName : Option String) :
    String :=
  match array, arrayName with
  | some a, some name =>
    if num ≤ 0 then ""
    else
      printLoop a num 1 ("Data of " ++ name ++ ": \x7b" ++ fmtHashX (a.getD 0 0)) ++ "\x7d\r\n"
  | _, _ => ""

/-- The items of a dump joined by `", "`. -/
def joinComma : List String → String
  | [] => ""
  | [x] => x
  | x :: y :: rest => x ++ ", " ++ joinComma (y :: rest)

/-- The items of a dump after the first, each preceded by `", "`. -/
def commaTail : List String → String
  | [] => ""
  | x :: xs => ", " ++ x ++ commaTail xs

/-- The dump format as the specification words it: every element is a
hexadecimal number carrying the `0x` marker. -/
def specDump (name : String) (array : List Nat) : String :=
  "Data of " ++ name ++ ": \x7b" ++ joinComma (array.map (fun v => "0x" ++ hexDigits v))
    ++ "\x7d\r\n"

/-! ## `main` as a step function -/

/-- The library and peripheral calls of `main` that the trace records. -/
inductive Op
  | cybsp_init
  | SCB_DisableDCache
  | SCB_DisableICache
  | enable_irq
  | Cy_SCB_UART_Init
  | Cy_SCB_UART_Enable
  | mtb_hal_uart_setup
  | cy_retarget_io_init
  | Cy_DMAC_Descriptor_Init
  | Cy_DMAC_Descriptor_SetSrcAddress
  | Cy_DMAC_Channel_Init
  | Cy_DMAC_Channel_SetDescriptor
  | Cy_DMAC_Channel_Enable
  | Cy_DMAC_Enable
  | Cy_TrigMux_SwTrigger
  | Cy_DMAC_Channel_GetInterruptStatus
  | Cy_GPIO_Write
  deriving DecidableEq

/-- The program points of `main`, one per statement, in source order.
`halted` is the point reached by `CY_ASSERT(0)`.

Modelled from the spec: the macro `CY_ASSERT` is not defined in `main.c`; a
fatal configuration error must "immediately halt program execution via an
unconditional assertion/abort", so `CY_ASSERT(0)` leads to `halted`, which is
never left. -/
inductive PC
  | bspInit
  | disableDCache
  | disableICache
  | enableIrq
  | uartInit
  | uartEnable
  | halUartSetup
  | retargetInit
  | printClear
  | printTitle
  | printSrcAddr
  | printSrc
  | printDstAddr
  | printDst
  | descriptorInit
  | setSrcAddress
  | channelInit
  | setDescriptor
  | channelEnable
  | dmacEnable
  | printStart
  | swTrigger
  | poll
  | printFinished
  | printDstAfter
  | verify
  | reportOk
  | ledOn
  | reportFail
  | idle
  | halted
  deriving DecidableEq

/-- What `main` does not decide itself: where its arrays lie, the constants of
the headers it includes, what the initialisation calls return, what each read
of the channel interrupt status returns, and the contents the DMA engine has
left in `dst` when the completion flag is observed. -/
structure Env where
  srcAddr : Nat
  dstAddr : Nat
  CY_RSLT_SUCCESS : Nat
  CY_DMAC_SUCCESS : Nat
  CY_DMAC_INTR_COMPLETION : Nat
  cybsp_init : Nat
  Cy_SCB_UART_Init : Nat
  mtb_hal_uart_setup : Nat
  cy_retarget_io_init : Nat
  Cy_DMAC_Descriptor_Init : Nat
  Cy_DMAC_Channel_Init : Nat
  intrStatus : Nat → Nat
  dstAfter : List Nat

/-- The state of `main`: program point, the contents of `dst` as the program
sees them, the text printed, whether the LED pin has been driven to
`CYBSP_LED_STATE_ON`, the calls made so far, and the number of reads of the
interrupt status made so far. -/
structure State where
  pc : PC
  dst : List Nat
  console : String
  led : Bool
  trace : List Op
  polls : Nat

/-- The state on entry to `main`. -/
def initState : State :=
  { pc := PC.bspInit, dst := dstInit, console := "", led := false, trace := [], polls := 0 }

/-- A call whose result is not inspected. -/
def State.call (s : State) (op : Op) (next : PC) : State :=
  { s with trace := s.trace ++ [op], pc := next }

/-- A call followed by `if (result != success) CY_ASSERT(0);`. -/
def State.callChecked (s : State) (op : Op) (result success : Nat) (next : PC) : State :=
  { s with trace := s.trace ++ [op], pc := if result ≠ success then PC.halted else next }

/-- A `printf` (or `printArrayToUART`) statement. -/
def State.print (s : State) (text : String) (next : PC) : State :=
  { s with console := s.console ++ text, pc := next }

/-- The condition of the poll loop of `main` for a status value:
`(status & CY_DMAC_INTR_COMPLETION) != CY_DMAC_INTR_COMPLETION`. -/
def pollPending (env : Env) (status : Nat) : Bool :=
  (status &&& env.CY_DMAC_INTR_COMPLETION) != env.CY_DMAC_INTR_COMPLETION

/-- One statement of `main`. -/
def step (env : Env) (s : State) : State :=
  match s.pc with
  | PC.bspInit => s.callChecked Op.cybsp_init env.cybsp_init env.CY_RSLT_SUCCESS PC.disableDCache
  | PC.disableDCache => s.call Op.SCB_DisableDCache PC.disableICache
  | PC.disableICache => s.call Op.SCB_DisableICache PC.enableIrq
  | PC.enableIrq => s.call Op.enable_irq PC.uartInit
  | PC.uartInit =>
      s.callChecked Op.Cy_SCB_UART_Init env.Cy_SCB_UART_Init env.CY_RSLT_SUCCESS PC.uartEnable
  | PC.uartEnable => s.call Op.Cy_SCB_UART_Enable PC.halUartSetup
  | PC.halUartSetup =>
      s.callChecked Op.mtb_hal_uart_setup env.mtb_hal_uart_setup env.CY_RSLT_SUCCESS
        PC.retargetInit
  | PC.retargetInit =>
      s.callChecked Op.cy_retarget_io_init env.cy_retarget_io_init env.CY_RSLT_SUCCESS
        PC.printClear
  | PC.printClear => s.print "\x1b[2J\x1b[;H" PC.printTitle
  | PC.printTitle => s.print "--- M-DMA Scatter Transfer Example ---\r\n\r\n" PC.printSrcAddr
  | PC.printSrcAddr =>
      s.print ("Address of src array: 0x" ++ fmt08x env.srcAddr ++ "\r\n") PC.printSrc
  | PC.printSrc =>
      s.print (printArrayToUART (some (src env.dstAddr)) 16 (some "src")) PC.printDstAddr
  | PC.printDstAddr =>
      s.print ("Address of dst array: 0x" ++ fmt08x env.dstAddr ++ "\r\n") PC.printDst
  | PC.printDst => s.print (printArrayToUART (some s.dst) 8 (some "dst")) PC.descriptorInit
  | PC.descriptorInit =>
      s.callChecked Op.Cy_DMAC_Descriptor_Init env.Cy_DMAC_Descriptor_Init env.CY_DMAC_SUCCESS
        PC.setSrcAddress
  | PC.setSrcAddress => s.call Op.Cy_DMAC_Descriptor_SetSrcAddress PC.channelInit
  | PC.channelInit =>
      s.callChecked Op.Cy_DMAC_Channel_Init env.Cy_DMAC_Channel_Init env.CY_DMAC_SUCCESS
        PC.setDescriptor
  | PC.setDescriptor => s.call Op.Cy_DMAC_Channel_SetDescriptor PC.channelEnable
  | PC.channelEnable => s.call Op.Cy_DMAC_Channel_Enable PC.dmacEnable
  | PC.dmacEnable => s.call Op.Cy_DMAC_Enable PC.printStart
  | PC.printStart => s.print "Start DMA transfer!\r\n" PC.swTrigger
  | PC.swTrigger => s.call Op.Cy_TrigMux_SwTrigger PC.poll
  | PC.poll =>
      if pollPending env (env.intrStatus s.polls) then
        { s with trace := s.trace ++ [Op.Cy_DMAC_Channel_GetInterruptStatus],
                 polls := s.polls + 1 }
      else
        { s with trace := s.trace ++ [Op.Cy_DMAC_Channel_GetInterruptStatus],
                 polls := s.polls + 1, dst := env.dstAfter, pc := PC.printFinished }
  | PC.printFinished => s.print "DMA transfer finished!\r\n" PC.printDstAfter
  | PC.printDstAfter => s.print (printArrayToUART (some s.dst) 8 (some "dst")) PC.verify
  | PC.verify => { s with pc := if verifyEq s.dst then PC.reportOk else PC.reportFail }
  | PC.reportOk => s.print "Data was transferred correctly!\r\n" PC.ledOn
  | PC.ledOn => { s with led := true, trace := s.trace ++ [Op.Cy_GPIO_Write], pc := PC.idle }
  | PC.reportFail =>
      s.print "Data in dst array is not as expected. Something went wrong.\r\n" PC.idle
  | PC.idle => s
  | PC.halted => s

/-- The state after `n` statements, starting from `s`. -/
def runFrom (env : Env) (s : State) : Nat → State
  | 0 => s
  | n + 1 => step env (runFrom env s n)

/-- The state of `main` after `n` statements. -/
def run (env : Env) (n : Nat) : State := runFrom env initState n

/-! ## Bookkeeping for the proofs about `main` -/

/-- The position of a program point in source order. -/
def rank : PC → Nat
  | PC.bspInit => 0
  | PC.disableDCache => 1
  | PC.disableICache => 2
  | PC.enableIrq => 3
  | PC.uartInit => 4
  | PC.uartEnable => 5
  | PC.halUartSetup => 6
  | PC.retargetInit => 7
  | PC.printClear => 8
  | PC.printTitle => 9
  | PC.printSrcAddr => 10
  | PC.printSrc => 11
  | PC.printDstAddr => 12
  | PC.printDst => 13
  | PC.descriptorInit => 14
  | PC.setSrcAddress => 15
  | PC.channelInit => 16
  | PC.setDescriptor => 17
  | PC.channelEnable => 18
  | PC.dmacEnable => 19
  | PC.printStart => 20
  | PC.swTrigger => 21
  | PC.poll => 22
  | PC.printFinished => 23
  | PC.printDstAfter => 24
  | PC.verify => 25
  | PC.reportOk => 26
  | PC.ledOn => 27
  | PC.reportFail => 28
  | PC.idle => 29
  | PC.halted => 30

/-- The calls of `main` up to and including the software trigger, in source
order. -/
def linearOps : List Op :=
  [Op.cybsp_init, Op.SCB_DisableDCache, Op.SCB_DisableICache, Op.enable_irq,
   Op.Cy_SCB_UART_Init, Op.Cy_SCB_UART_Enable, Op.mtb_hal_uart_setup, Op.cy_retarget_io_init,
   Op.Cy_DMAC_Descriptor_Init, Op.Cy_DMAC_Descriptor_SetSrcAddress, Op.Cy_DMAC_Channel_Init,
   Op.Cy_DMAC_Channel_SetDescriptor, Op.Cy_DMAC_Channel_Enable, Op.Cy_DMAC_Enable,
   Op.Cy_TrigMux_SwTrigger]

/-- The number of calls that source order puts before a program point, for the
program points up to the poll loop. -/
def opsBefore : PC → Nat
  | PC.bspInit => 0
  | PC.disableDCache => 1
  | PC.disableICache => 2
  | PC.enableIrq => 3
  | PC.uartInit => 4
  | PC.uartEnable => 5
  | PC.halUartSetup => 6
  | PC.retargetInit => 7
  | PC.printClear => 8
  | PC.printTitle => 8
  | PC.printSrcAddr => 8
  | PC.printSrc => 8
  | PC.printDstAddr => 8
  | PC.printDst => 8
  | PC.descriptorInit => 8
  | PC.setSrcAddress => 9
  | PC.channelInit => 10
  | PC.setDescriptor => 11
  | PC.channelEnable => 12
  | PC.dmacEnable => 13
  | PC.printStart => 14
  | PC.swTrigger => 14
  | _ => 15

/-- The fallible initialisation step at a program point returns a result other
than success in this environment. -/
def failsAt (env : Env) : PC → Bool
  | PC.bspInit => env.cybsp_init != env.CY_RSLT_SUCCESS
  | PC.uartInit => env.Cy_SCB_UART_Init != env.CY_RSLT_SUCCESS
  | PC.halUartSetup => env.mtb_hal_uart_setup != env.CY_RSLT_SUCCESS
  | PC.retargetInit => env.cy_retarget_io_init != env.CY_RSLT_SUCCESS
  | PC.descriptorInit => env.Cy_DMAC_Descriptor_Init != env.CY_DMAC_SUCCESS
  | PC.channelInit => env.Cy_DMAC_Channel_Init != env.CY_DMAC_SUCCESS
  | _ => false

/-- Every fallible initialisation step at a position below `r` returns
success. -/
def okUpTo (env : Env) (r : Nat) : Prop :=
  (0 < r → env.cybsp_init = env.CY_RSLT_SUCCESS) ∧
  (4 < r → env.Cy_SCB_UART_Init = env.CY_RSLT_SUCCESS) ∧
  (6 < r → env.mtb_hal_uart_setup = env.CY_RSLT_SUCCESS) ∧
  (7 < r → env.cy_retarget_io_init = env.CY_RSLT_SUCCESS) ∧
  (14 < r → env.Cy_DMAC_Descriptor_Init = env.CY_DMAC_SUCCESS) ∧
  (16 < r → env.Cy_DMAC_Channel_Init = env.CY_DMAC_SUCCESS)

/-- All six fallible initialisation steps return success. -/
def allInitOk (env : Env) : Prop :=
  env.cybsp_init = env.CY_RSLT_SUCCESS ∧
  env.Cy_SCB_UART_Init = env.CY_RSLT_SUCCESS ∧
  env.mtb_hal_uart_setup = env.CY_RSLT_SUCCESS ∧
  env.cy_retarget_io_init = env.CY_RSLT_SUCCESS ∧
  env.Cy_DMAC_Descriptor_Init = env.CY_DMAC_SUCCESS ∧
  env.Cy_DMAC_Channel_Init = env.CY_DMAC_SUCCESS

/-- The calls made when the poll loop has read the status `p` times. -/
def pollTrace (p : Nat) : List Op :=
  linearOps ++ List.replicate p Op.Cy_DMAC_Channel_GetInterruptStatus

/-- The poll loop has been left: the last read saw the completion flag, none
before it did, and `dst` holds what the DMA engine left. -/
def Exited (env : Env) (s : State) : Prop :=
  s.dst = env.dstAfter ∧ 0 < s.polls ∧
  pollPending env (env.intrStatus (s.polls - 1)) = false ∧
  (∀ j, j + 1 < s.polls → pollPending env (env.intrStatus j) = true) ∧
  okUpTo env 22

/-- What holds in every state `main` can reach, by program point. -/
def Inv (env : Env) (s : State) : Prop :=
  match s.pc with
  | PC.halted =>
      s.led = false ∧ s.dst = dstInit ∧ s.polls = 0 ∧
      ∃ Y, failsAt env Y = true ∧ okUpTo env (rank Y) ∧ s.trace = linearOps.take (opsBefore Y + 1)
  | PC.poll =>
      s.led = false ∧ s.dst = dstInit ∧ s.trace = pollTrace s.polls ∧
      (∀ j, j < s.polls → pollPending env (env.intrStatus j) = true) ∧ okUpTo env 22
  | PC.printFinished => s.led = false ∧ s.trace = pollTrace s.polls ∧ Exited env s
  | PC.printDstAfter => s.led = false ∧ s.trace = pollTrace s.polls ∧ Exited env s
  | PC.verify => s.led = false ∧ s.trace = pollTrace s.polls ∧ Exited env s
  | PC.reportOk =>
      s.led = false ∧ s.trace = pollTrace s.polls ∧ Exited env s ∧ verifyEq s.dst = true
  | PC.ledOn =>
      s.led = false ∧ s.trace = pollTrace s.polls ∧ Exited env s ∧ verifyEq s.dst = true
  | PC.reportFail =>
      s.led = false ∧ s.trace = pollTrace s.polls ∧ Exited env s ∧ verifyEq s.dst = false
  | PC.idle =>
      Exited env s ∧
      ((s.led = true ∧ verifyEq s.dst = true ∧ s.trace = pollTrace s.polls ++ [Op.Cy_GPIO_Write]) ∨
       (s.led = false ∧ verifyEq s.dst = false ∧ s.trace = pollTrace s.polls))
  | p =>
      s.led = false ∧ s.dst = dstInit ∧ s.polls = 0 ∧
      s.trace = linearOps.take (opsBefore p) ∧ okUpTo env (rank p)

/-! ## Further notions used in the statements -/

/-- Some statement before the `n`-th was a read of the interrupt status in the poll loop
that saw the completion flag. -/
def ObservedBefore (env : Env) (n : Nat) : Prop :=
  ∃ m, m < n ∧ (run env m).pc = PC.poll ∧
    pollPending env (env.intrStatus (run env m).polls) = false

/-- Some statement before the `n`-th was the comparison of `dst` with `REFERENCE`, it
found them equal, and the completion flag had been observed before it. -/
def ComparedEqualBefore (env : Env) (n : Nat) : Prop :=
  ∃ m, m < n ∧ (run env m).pc = PC.verify ∧ verifyEq (run env m).dst = true ∧
    ObservedBefore env m

/-- What the history of a run guarantees at each program point after the poll loop. -/
def Hist (env : Env) (n : Nat) (s : State) : Prop :=
  match s.pc with
  | PC.printFinished => ObservedBefore env n
  | PC.printDstAfter => ObservedBefore env n
  | PC.verify => ObservedBefore env n
  | PC.reportOk => ComparedEqualBefore env n
  | PC.ledOn => ComparedEqualBefore env n
  | PC.idle => s.led = true → ComparedEqualBefore env n
  | _ => True

/-- The calls of `main` before the software trigger, in source order. -/
def armOps : List Op :=
  [Op.cybsp_init, Op.SCB_DisableDCache, Op.SCB_DisableICache, Op.enable_irq,
   Op.Cy_SCB_UART_Init, Op.Cy_SCB_UART_Enable, Op.mtb_hal_uart_setup, Op.cy_retarget_io_init,
   Op.Cy_DMAC_Descriptor_Init, Op.Cy_DMAC_Descriptor_SetSrcAddress, Op.Cy_DMAC_Channel_Init,
   Op.Cy_DMAC_Channel_SetDescriptor, Op.Cy_DMAC_Channel_Enable, Op.Cy_DMAC_Enable]

/-- The program points of the verification phase. -/
def inVerifyPhase (pc : PC) : Prop :=
  pc = PC.verify ∨ pc = PC.reportOk ∨ pc = PC.ledOn ∨ pc = PC.reportFail ∨ pc = PC.idle

/-- The contents of `dst` after the pairs selected by `sel` have been written. -/
def selectedResult (sel : Nat → Bool) : List Nat :=
  [if sel 2 then 2 else 0, if sel 3 then 3 else 0, 0, if sel 6 then 6 else 0,
   if sel 5 then 5 else 0, if sel 4 then 4 else 0, if sel 7 then 7 else 0,
   if sel 1 then 1 else 0]

/-- The number of slots in which a buffer differs from the initial `dst`. -/
def changedSlots (d : List Nat) : Nat :=
  ((List.range 8).filter (fun i => d.getD i 0 != dstInit.getD i 0)).length

/-! ## Concrete environments and states -/

/-- An environment in which every initialisation step succeeds, the first three reads of
the interrupt status lack the completion flag, the fourth has it together with another
bit, and the DMA engine leaves `REFERENCE` in `dst`. -/
def envOk : Env :=
  { srcAddr := 0x28001000, dstAddr := 0x28001040,
    CY_RSLT_SUCCESS := 0, CY_DMAC_SUCCESS := 0, CY_DMAC_INTR_COMPLETION := 1,
    cybsp_init := 0, Cy_SCB_UART_Init := 0, mtb_hal_uart_setup := 0,
    cy_retarget_io_init := 0, Cy_DMAC_Descriptor_Init := 0, Cy_DMAC_Channel_Init := 0,
    intrStatus := fun k => if k < 3 then 0 else 3,
    dstAfter := [2, 3, 0, 6, 5, 4, 7, 1] }

/-- An environment in which the DMA descriptor initialisation is rejected. -/
def envDescFail : Env :=
  { srcAddr := 0x28001000, dstAddr := 0x28001040,
    CY_RSLT_SUCCESS := 0, CY_DMAC_SUCCESS := 0, CY_DMAC_INTR_COMPLETION := 1,
    cybsp_init := 0, Cy_SCB_UART_Init := 0, mtb_hal_uart_setup := 0,
    cy_retarget_io_init := 0, Cy_DMAC_Descriptor_Init := 1, Cy_DMAC_Channel_Init := 0,
    intrStatus := fun _ => 1,
    dstAfter := [2, 3, 0, 6, 5, 4, 7, 1] }

/-- A state at the verification step whose `dst` holds `REFERENCE`. -/
def stVerifyOk : State :=
  { pc := PC.verify, dst := [2, 3, 0, 6, 5, 4, 7, 1], console := "", led := false,
    trace := [], polls := 0 }

/-- A state at the verification step whose `dst` has one bit of slot 3 flipped. -/
def stVerifyBad : State :=
  { pc := PC.verify, dst := [2, 3, 0, 7, 5, 4, 7, 1], console := "", led := false,
    trace := [], polls := 0 }

/-! ## Lemmas on the buffers -/

theorem addrOfDst_inj (b i j : Nat) (hi : i < 8) (hj : j < 8)
    (h : addrOfDst b i = addrOfDst b j) : i = j := by
  unfold addrOfDst at h
  omega

theorem slotOf_addrOfDst (b i : Nat) (hi : i < 8) :
    slotOf b 8 (addrOfDst b i) = some i := by
  have hr : List.range 8 = [0, 1, 2, 3, 4, 5, 6, 7] := by decide
  have hne : ∀ j, j < 8 → j ≠ i → (addrOfDst b j == addrOfDst b i) = false := by
    intro j hj hji
    rw [beq_eq_false_iff_ne]
    exact fun h => hji (addrOfDst_inj b j i hj hi h)
  unfold slotOf
  rw [hr]
  interval_cases i <;> simp [List.find?, hne]

theorem scatterWrite_slot (b : Nat) (dst : List Nat) (i v : Nat) (hl : dst.length = 8)
    (hi : i < 8) : scatterWrite b dst (addrOfDst b i) v = dst.set i v := by
  unfold scatterWrite
  rw [hl, slotOf_addrOfDst b i hi]

theorem memcmp_eq_zero_iff (n : Nat) : ∀ xs ys : List Nat, n ≤ xs.length → n ≤ ys.length →
    (memcmp xs ys n = 0 ↔ xs.take n = ys.take n) := by
  induction n with
  | zero =>
    intro xs ys _ _
    cases xs <;> cases ys <;> simp [memcmp]
  | succ n ih =>
    intro xs ys hx hy
    cases xs with
    | nil => simp at hx
    | cons x xs =>
      cases ys with
      | nil => simp at hy
      | cons y ys =>
        simp only [List.length_cons, Nat.add_le_add_iff_right] at hx hy
        by_cases hxy : x = y
        · simp [memcmp, hxy, ih xs ys hx hy]
        · have hne : (x : Int) - (y : Int) ≠ 0 := by omega
          simp [memcmp, hxy, hne]

theorem memBytes_eq_iff (dst : List Nat) (hl : dst.length = 8)
    (hw : ∀ w ∈ dst, w < 4294967296) :
    memBytes dst = memBytes REFERENCE ↔ dst = REFERENCE := by
  match dst, hl with
  | [a, b, c, d, e, f, g, h], _ =>
    simp only [List.mem_cons, List.mem_singleton, forall_eq_or_imp, forall_eq] at hw
    simp [memBytes, wordBytes, REFERENCE]
    omega

theorem memBytes_length (dst : List Nat) : (memBytes dst).length = 4 * dst.length := by
  induction dst with
  | nil => rfl
  | cons w ws ih => simp [memBytes, wordBytes, ih]; omega

theorem verifyEq_iff (dst : List Nat) (hl : dst.length = 8) (hw : ∀ w ∈ dst, w < 4294967296) :
    verifyEq dst = true ↔ dst = REFERENCE := by
  have h1 : (memBytes dst).length = 32 := by rw [memBytes_length, hl]
  have h2 : (memBytes REFERENCE).length = 32 := by rw [memBytes_length]; rfl
  unfold verifyEq
  rw [beq_iff_eq, memcmp_eq_zero_iff _ _ _ (by rw [h1]; exact le_refl _)
    (by rw [h2]; exact le_refl _), ← memBytes_eq_iff dst hl hw]
  have hs : sizeofDst = 32 := rfl
  rw [hs, ← h1, List.take_length, h1, ← h2, List.take_length]

theorem scatterTransfer_src (b : Nat) :
    scatterTransfer b dstInit (pairsOf (src b)) = REFERENCE := by
  simp [src, pairsOf, scatterTransfer, scatterWrite_slot, dstInit, REFERENCE]

/-! ## Lemmas on the console output -/

theorem joinComma_cons (x : String) (xs : List String) :
    joinComma (x :: xs) = x ++ commaTail xs := by
  induction xs generalizing x with
  | nil => simp [joinComma, commaTail]
  | cons y ys ih => simp [joinComma, commaTail, ih, String.append_assoc]

theorem printLoop_eq (rest : List Nat) : ∀ (pre : List Nat) (out : String),
    printLoop (pre ++ rest) (pre ++ rest).length pre.length out
      = out ++ commaTail (rest.map fmtHashX) := by
  induction rest with
  | nil =>
    intro pre out
    rw [printLoop]
    simp [commaTail]
  | cons r rs ih =>
    intro pre out
    rw [printLoop]
    have hlt : pre.length < (pre ++ r :: rs).length := by simp
    have hget : (pre ++ r :: rs).getD pre.length 0 = r := by
      rw [List.getD_eq_getElem?_getD, List.getElem?_append_right (le_refl _)]
      simp
    rw [if_pos hlt, hget]
    have happ : pre ++ r :: rs = (pre ++ [r]) ++ rs := by simp
    have hlen : pre.length + 1 = (pre ++ [r]).length := by simp
    rw [happ, hlen, ih]
    simp [commaTail, String.append_assoc]

theorem printArrayToUART_eq (a : List Nat) (name : String) (ha : a ≠ []) :
    printArrayToUART (some a) a.length (some name)
      = "Data of " ++ name ++ ": \x7b" ++ joinComma (a.map fmtHashX) ++ "\x7d\r\n" := by
  cases a with
  | nil => exact absurd rfl ha
  | cons x xs =>
    have h := printLoop_eq xs [x] ("Data of " ++ name ++ ": \x7b" ++ fmtHashX x)
    simp only [List.singleton_append, List.length_singleton] at h
    simp only [printArrayToUART]
    rw [if_neg (by simp), List.getD_cons_zero, h, List.map_cons, joinComma_cons]
    simp [String.append_assoc]

/-! ## Lemmas on `main` -/

theorem runFrom_add (env : Env) (s : State) (m n : Nat) :
    runFrom env s (m + n) = runFrom env (runFrom env s m) n := by
  induction n with
  | zero => rfl
  | succ n ih => simp [← Nat.add_assoc, runFrom, ih]

theorem runFrom_fixed (env : Env) (s : State) (h : step env s = s) (n : Nat) :
    runFrom env s n = s := by
  induction n with
  | zero => rfl
  | succ n ih => simp [runFrom, ih, h]

theorem inv_init (env : Env) : Inv env initState := by
  simp [Inv, initState, opsBefore, okUpTo, rank]

theorem pollTrace_succ (p : Nat) :
    pollTrace p ++ [Op.Cy_DMAC_Channel_GetInterruptStatus] = pollTrace (p + 1) := by
  simp [pollTrace, List.replicate_succ']

theorem inv_step (env : Env) (s : State) (h : Inv env s) : Inv env (step env s) := by
  obtain ⟨pc, dst, console, led, trace, polls⟩ := s
  cases pc <;> simp only [step, State.call, State.callChecked, State.print] <;>
    (try split_ifs) <;> simp only [Inv, Exited] at h ⊢
  all_goals first
    | exact h
    | (simp_all [opsBefore, rank, okUpTo, linearOps, failsAt, pollTrace]; done)
    | (rename_i hc
       obtain ⟨h1, h2, h3, h4, h5⟩ := h
       first
        | exact ⟨h1, h2, h3, PC.bspInit, by simpa [failsAt] using hc, h5, by rw [h4]; rfl⟩
        | exact ⟨h1, h2, h3, PC.uartInit, by simpa [failsAt] using hc, h5, by rw [h4]; rfl⟩
        | exact ⟨h1, h2, h3, PC.halUartSetup, by simpa [failsAt] using hc, h5, by rw [h4]; rfl⟩
        | exact ⟨h1, h2, h3, PC.retargetInit, by simpa [failsAt] using hc, h5, by rw [h4]; rfl⟩
        | exact ⟨h1, h2, h3, PC.descriptorInit, by simpa [failsAt] using hc, h5, by rw [h4]; rfl⟩
        | exact ⟨h1, h2, h3, PC.channelInit, by simpa [failsAt] using hc, h5, by rw [h4]; rfl⟩
        | exact ⟨h1, h2, by rw [h3, pollTrace_succ], fun j hj => by
            rcases Nat.lt_succ_iff_lt_or_eq.mp hj with hlt | heq
            · exact h4 j hlt
            · rw [heq]; exact hc, h5⟩
        | exact ⟨h1, by rw [h3, pollTrace_succ], trivial, Nat.succ_pos _, by simpa using hc,
            fun j hj => h4 j (by omega), h5⟩)
    | (obtain ⟨h1, h2, h3, h4⟩ := h
       first
        | exact ⟨h3, Or.inl ⟨trivial, h4, by rw [h2]⟩⟩
        | exact ⟨h3, Or.inr ⟨h1, h4, h2⟩⟩)

theorem inv_run (env : Env) (n : Nat) : Inv env (run env n) := by
  induction n with
  | zero => exact inv_init env
  | succ n ih => exact inv_step env _ ih

theorem step_halted (env : Env) (s : State) (h : s.pc = PC.halted) : step env s = s := by
  obtain ⟨pc, dst, console, led, trace, polls⟩ := s
  simp only at h
  subst h
  rfl

theorem step_idle (env : Env) (s : State) (h : s.pc = PC.idle) : step env s = s := by
  obtain ⟨pc, dst, console, led, trace, polls⟩ := s
  simp only at h
  subst h
  rfl

theorem run_add (env : Env) (m n : Nat) : run env (m + n) = runFrom env (run env m) n :=
  runFrom_add env initState m n

theorem run_succ (env : Env) (n : Nat) : run env (n + 1) = step env (run env n) := rfl

theorem run_halted (env : Env) (m n : Nat) (hmn : m ≤ n) (h : (run env m).pc = PC.halted) :
    run env n = run env m := by
  obtain ⟨k, rfl⟩ := Nat.exists_eq_add_of_le hmn
  rw [run_add, runFrom_fixed env _ (step_halted env _ h)]

theorem run_idle (env : Env) (m n : Nat) (hmn : m ≤ n) (h : (run env m).pc = PC.idle) :
    run env n = run env m := by
  obtain ⟨k, rfl⟩ := Nat.exists_eq_add_of_le hmn
  rw [run_add, runFrom_fixed env _ (step_idle env _ h)]

theorem step_progress (env : Env) (s : State) (h : rank s.pc < 22) :
    (step env s).pc = PC.halted ∨ rank (step env s).pc = rank s.pc + 1 := by
  obtain ⟨pc, dst, console, led, trace, polls⟩ := s
  cases pc <;> simp [rank] at h <;>
    simp only [step, State.call, State.callChecked, State.print] <;>
    (try split_ifs) <;> simp [rank]

theorem run_progress (env : Env) (n : Nat) (hn : n ≤ 22) :
    (run env n).pc = PC.halted ∨ rank (run env n).pc = n := by
  induction n with
  | zero => right; rfl
  | succ n ih =>
    rcases ih (by omega) with hh | hr
    · left
      rw [run_succ, step_halted env _ hh]; exact hh
    · have := step_progress env (run env n) (by omega)
      rw [run_succ]
      rcases this with h1 | h1
      · exact Or.inl h1
      · exact Or.inr (by omega)

theorem okUpTo_mono (env : Env) (a b : Nat) (hab : a ≤ b) (h : okUpTo env b) : okUpTo env a := by
  obtain ⟨h1, h2, h3, h4, h5, h6⟩ := h
  exact ⟨fun h => h1 (by omega), fun h => h2 (by omega), fun h => h3 (by omega),
    fun h => h4 (by omega), fun h => h5 (by omega), fun h => h6 (by omega)⟩

theorem okUpTo_all (env : Env) (r : Nat) (h : okUpTo env 22) : okUpTo env r := by
  obtain ⟨h1, h2, h3, h4, h5, h6⟩ := h
  exact ⟨fun _ => h1 (by omega), fun _ => h2 (by omega), fun _ => h3 (by omega),
    fun _ => h4 (by omega), fun _ => h5 (by omega), fun _ => h6 (by omega)⟩

theorem allInitOk_iff (env : Env) : allInitOk env ↔ okUpTo env 22 := by
  simp [allInitOk, okUpTo]

theorem fails_rank (env : Env) (X : PC) (r : Nat) (hX : failsAt env X = true)
    (hr : okUpTo env r) : r ≤ rank X := by
  obtain ⟨h1, h2, h3, h4, h5, h6⟩ := hr
  by_contra hlt
  cases X <;> simp [failsAt, rank] at hX hlt
  · exact hX (h1 (by omega))
  · exact hX (h2 (by omega))
  · exact hX (h3 (by omega))
  · exact hX (h4 (by omega))
  · exact hX (h5 (by omega))
  · exact hX (h6 (by omega))

theorem fails_rank_le (env : Env) (X : PC) (hX : failsAt env X = true) : rank X ≤ 16 := by
  cases X <;> simp [failsAt, rank] at hX ⊢

theorem inv_ok (env : Env) (s : State) (h : Inv env s) (hp : s.pc ≠ PC.halted) :
    okUpTo env (rank s.pc) := by
  obtain ⟨pc, dst, console, led, trace, polls⟩ := s
  cases pc <;> simp only [Inv, Exited] at h <;> simp only [ne_eq, not_true_eq_false] at hp
  all_goals first
    | exact h.2.2.2.2
    | exact okUpTo_all env _ h.2.2.2.2.2.2
    | exact okUpTo_all env _ h.2.2.1.2.2.2.2
    | exact okUpTo_all env _ h.1.2.2.2.2

theorem opsBefore_mono (Y X : PC) (h : rank Y ≤ rank X) (hX : rank X ≤ 22) :
    opsBefore Y ≤ opsBefore X := by
  cases Y <;> cases X <;> simp [rank, opsBefore] at h hX ⊢

theorem rank_inj (p q : PC) (h : rank p = rank q) : p = q := by
  cases p <;> cases q <;> simp [rank] at h ⊢

theorem step_progress_fail (env : Env) (s : State) (h : rank s.pc < 22) :
    ((step env s).pc = PC.halted ∧ failsAt env s.pc = true) ∨
      rank (step env s).pc = rank s.pc + 1 := by
  obtain ⟨pc, dst, console, led, trace, polls⟩ := s
  cases pc <;> simp [rank] at h <;>
    simp only [step, State.call, State.callChecked, State.print] <;>
    (try split_ifs) <;> simp_all [rank, failsAt]

theorem run_progress_fail (env : Env) (n : Nat) (hn : n ≤ 22) :
    ((run env n).pc = PC.halted ∧ ∃ Y, failsAt env Y = true ∧ rank Y < n) ∨
      rank (run env n).pc = n := by
  induction n with
  | zero => right; rfl
  | succ n ih =>
    rw [run_succ]
    rcases ih (by omega) with ⟨hh, Y, hY, hlt⟩ | hr
    · left
      rw [step_halted env _ hh]
      exact ⟨hh, Y, hY, by omega⟩
    · rcases step_progress_fail env (run env n) (by omega) with ⟨h1, h2⟩ | h1
      · exact Or.inl ⟨h1, (run env n).pc, h2, by omega⟩
      · exact Or.inr (by omega)

theorem inv_prepoll (env : Env) (s : State) (h : Inv env s) (hr : rank s.pc < 22) :
    s.led = false ∧ s.dst = dstInit ∧ s.polls = 0 ∧
      s.trace = linearOps.take (opsBefore s.pc) := by
  obtain ⟨pc, dst, console, led, trace, polls⟩ := s
  cases pc <;> simp [rank] at hr <;> simp only [Inv] at h <;>
    exact ⟨h.1, h.2.1, h.2.2.1, h.2.2.2.1⟩

theorem inv_halted (env : Env) (s : State) (h : Inv env s) (hp : s.pc = PC.halted) :
    s.led = false ∧ s.dst = dstInit ∧ s.polls = 0 ∧
      ∃ Y, failsAt env Y = true ∧ okUpTo env (rank Y) ∧
        s.trace = linearOps.take (opsBefore Y + 1) := by
  obtain ⟨pc, dst, console, led, trace, polls⟩ := s
  simp only at hp
  subst hp
  exact h

/-- In a run where the step at `X` fails, every state is at or before `X`, or halted, and
its calls are among those up to `X`. -/
theorem fail_bound (env : Env) (X : PC) (hX : failsAt env X = true) (n : Nat) :
    ((run env n).pc = PC.halted ∨ rank (run env n).pc ≤ rank X) ∧
    (run env n).led = false ∧ (run env n).dst = dstInit ∧ (run env n).polls = 0 ∧
    ∃ j, j ≤ opsBefore X + 1 ∧ (run env n).trace = linearOps.take j := by
  have hinv := inv_run env n
  have hX16 := fails_rank_le env X hX
  by_cases hp : (run env n).pc = PC.halted
  · obtain ⟨h1, h2, h3, Y, hY, hok, ht⟩ := inv_halted env _ hinv hp
    have hYX := fails_rank env X (rank Y) hX hok
    exact ⟨Or.inl hp, h1, h2, h3, opsBefore Y + 1,
      Nat.succ_le_succ (opsBefore_mono Y X hYX (by omega)), ht⟩
  · have hr := fails_rank env X _ hX (inv_ok env _ hinv hp)
    obtain ⟨h1, h2, h3, ht⟩ := inv_prepoll env _ hinv (by omega)
    exact ⟨Or.inr hr, h1, h2, h3, opsBefore (run env n).pc,
      Nat.le_succ_of_le (opsBefore_mono _ X hr (by omega)), ht⟩

theorem opsBefore_fail_le (env : Env) (X : PC) (hX : failsAt env X = true) :
    opsBefore X + 1 ≤ 11 := by
  cases X <;> simp [failsAt, opsBefore] at hX ⊢

theorem count_linearOps_le (op : Op) : linearOps.count op ≤ 1 := by
  cases op <;> decide

theorem not_mem_take_linearOps (j : Nat) (hj : j ≤ 14) (op : Op)
    (hop : op = Op.Cy_TrigMux_SwTrigger ∨ op = Op.Cy_DMAC_Channel_GetInterruptStatus ∨
      op = Op.Cy_GPIO_Write) : op ∉ linearOps.take j := by
  have h14 : op ∉ linearOps.take 14 := by
    rcases hop with h | h | h <;> subst h <;> decide
  exact fun hm => h14 (( List.take_prefix_take_left linearOps hj).subset hm)

/-- C4: when one of the six fallible initialisation steps of `main` (board init, UART
init, HAL UART setup, retarget-io init, DMA descriptor init, DMA channel init) returns a
result other than success, `main` halts at that step: the statement after the failing call
is never reached, the program stays halted, the calls made are a leading part of the calls
up to the failing one, so the software trigger is never issued, the status is never read,
the LED is never written and the verification is never run; no call is made twice. The
failing step is reached when the fallible steps before it succeed. -/
theorem C4_init_failure_halts (env : Env) (X : PC) (hX : failsAt env X = true) :
    (∀ n, (run env n).pc = X → (run env (n + 1)).pc = PC.halted) ∧
    (∀ n, rank X < n → (run env n).pc = PC.halted) ∧
    (∀ n, (run env n).trace <+: linearOps.take (opsBefore X + 1)) ∧
    (∀ n, Op.Cy_TrigMux_SwTrigger ∉ (run env n).trace ∧
      Op.Cy_DMAC_Channel_GetInterruptStatus ∉ (run env n).trace ∧
      Op.Cy_GPIO_Write ∉ (run env n).trace ∧ (run env n).led = false ∧
      (run env n).pc ≠ PC.verify ∧ (run env n).dst = dstInit) ∧
    (∀ n op, (run env n).trace.count op ≤ 1) ∧
    (okUpTo env (rank X) → (run env (rank X)).pc = X) := by
  have hX16 := fails_rank_le env X hX
  have hXo := opsBefore_fail_le env X hX
  refine ⟨?_, ?_, ?_, ?_, ?_, ?_⟩
  · intro n hn
    have hs : ∀ s : State, s.pc = X → (step env s).pc = PC.halted := by
      intro s hs
      obtain ⟨pc, dst, console, led, trace, polls⟩ := s
      simp only at hs
      subst hs
      cases pc <;> simp [failsAt] at hX <;>
        simp [step, State.callChecked, hX]
    exact hs _ hn
  · intro n hn
    have hhalt : ∀ m, rank X < m → m ≤ 22 → (run env m).pc = PC.halted := by
      intro m hm hm22
      rcases run_progress env m hm22 with h1 | h1
      · exact h1
      · rcases (fail_bound env X hX m).1 with h | h
        · exact h
        · omega
    by_cases hn22 : n ≤ 22
    · exact hhalt n hn hn22
    · have h22 := hhalt 22 (by omega) (le_refl _)
      rw [run_halted env 22 n (by omega) h22]
      exact h22
  · intro n
    obtain ⟨_, _, _, _, j, hj, ht⟩ := fail_bound env X hX n
    rw [ht]
    exact List.take_prefix_take_left linearOps hj
  · intro n
    obtain ⟨hpc, hl, hd, _, j, hj, ht⟩ := fail_bound env X hX n
    refine ⟨?_, ?_, ?_, hl, ?_, hd⟩
    · rw [ht]; exact not_mem_take_linearOps j (by omega) _ (Or.inl rfl)
    · rw [ht]; exact not_mem_take_linearOps j (by omega) _ (Or.inr (Or.inl rfl))
    · rw [ht]; exact not_mem_take_linearOps j (by omega) _ (Or.inr (Or.inr rfl))
    · intro hv
      rcases hpc with h | h
      · rw [h] at hv; exact absurd hv (by decide)
      · rw [hv] at h
        have h25 : rank PC.verify = 25 := rfl
        omega
  · intro n op
    obtain ⟨_, _, _, _, j, hj, ht⟩ := fail_bound env X hX n
    rw [ht]
    exact le_trans (( List.take_prefix j linearOps).sublist.count_le op) (count_linearOps_le op)
  · intro hok
    rcases run_progress_fail env (rank X) (by omega) with ⟨_, Y, hY, hlt⟩ | h
    · have := fails_rank env Y (rank X) hY hok
      omega
    · exact rank_inj _ _ h

theorem observed_mono (env : Env) (n : Nat) (h : ObservedBefore env n) :
    ObservedBefore env (n + 1) := by
  obtain ⟨m, hm, h1, h2⟩ := h
  exact ⟨m, by omega, h1, h2⟩

theorem compared_mono (env : Env) (n : Nat) (h : ComparedEqualBefore env n) :
    ComparedEqualBefore env (n + 1) := by
  obtain ⟨m, hm, h1, h2, h3⟩ := h
  exact ⟨m, by omega, h1, h2, h3⟩

theorem hist_step (env : Env) (n : Nat) (s : State) (hs : run env n = s) (hinv : Inv env s)
    (h : Hist env n s) : Hist env (n + 1) (step env s) := by
  obtain ⟨pc, dst, console, led, trace, polls⟩ := s
  cases pc <;> simp only [step, State.call, State.callChecked, State.print] <;>
    (try split_ifs) <;> simp only [Hist] at h ⊢ <;> simp only [Inv] at hinv
  all_goals first
    | trivial
    | exact observed_mono env n h
    | exact compared_mono env n h
    | exact fun hl => compared_mono env n (h hl)
    | exact fun _ => compared_mono env n h
    | (rename_i hc
       exact ⟨n, Nat.lt_succ_self n, by rw [hs], by rw [hs]; simpa using hc⟩)
    | (rename_i hc
       exact ⟨n, Nat.lt_succ_self n, by rw [hs], by rw [hs]; exact hc, h⟩)
    | (intro hl
       rw [hinv.1] at hl
       exact absurd hl (by decide))

theorem hist_run (env : Env) (n : Nat) : Hist env n (run env n) := by
  induction n with
  | zero => simp [Hist, run, runFrom, initState]
  | succ n ih => exact hist_step env n _ rfl (inv_run env n) ih

theorem not_mem_pollTrace (p : Nat) : Op.Cy_GPIO_Write ∉ pollTrace p := by
  simp [pollTrace, linearOps]

/-- In a reachable state whose LED has been written, the program is in its idle loop. -/
theorem inv_led (env : Env) (s : State) (h : Inv env s)
    (hl : s.led = true ∨ Op.Cy_GPIO_Write ∈ s.trace) :
    s.pc = PC.idle ∧ s.led = true ∧ s.dst = env.dstAfter ∧ verifyEq s.dst = true ∧
      0 < s.polls ∧ pollPending env (env.intrStatus (s.polls - 1)) = false := by
  have hpre : ∀ j, j ≤ 15 → Op.Cy_GPIO_Write ∉ linearOps.take j := fun j _ hm =>
    absurd (( List.take_prefix j linearOps).subset hm) (by decide)
  obtain ⟨pc, dst, console, led, trace, polls⟩ := s
  cases pc <;> simp only [Inv, Exited] at h
  case idle =>
    obtain ⟨⟨h1, h2, h3, _, _⟩, h6⟩ := h
    rcases h6 with ⟨h7, h8, _⟩ | ⟨h7, _, h9⟩
    · exact ⟨rfl, h7, h1, h8, h2, h3⟩
    · exfalso
      simp only at hl
      rcases hl with hl | hl
      · rw [h7] at hl; exact absurd hl (by decide)
      · rw [h9] at hl; exact not_mem_pollTrace _ hl
  case halted =>
    exfalso
    obtain ⟨h1, _, _, Y, _, _, ht⟩ := h
    simp only at hl
    rcases hl with hl | hl
    · rw [h1] at hl; exact absurd hl (by decide)
    · rw [ht] at hl
      exact absurd (( List.take_prefix _ linearOps).subset hl) (by decide)
  all_goals
    exfalso
    simp only at hl
    rcases hl with hl | hl
    · rw [h.1] at hl; exact absurd hl (by decide)
    · first
        | (rw [h.2.2.2.1] at hl
           exact absurd (( List.take_prefix _ linearOps).subset hl) (by decide))
        | (rw [h.2.2.1] at hl; exact not_mem_pollTrace _ hl)
        | (rw [h.2.1] at hl; exact not_mem_pollTrace _ hl)

/-- A reachable state past the poll loop has seen a read with the completion flag. -/
theorem inv_past_poll (env : Env) (s : State) (h : Inv env s) (hr : 22 < rank s.pc)
    (hp : s.pc ≠ PC.halted) :
    0 < s.polls ∧ pollPending env (env.intrStatus (s.polls - 1)) = false := by
  obtain ⟨pc, dst, console, led, trace, polls⟩ := s
  cases pc <;> simp [rank] at hr <;> simp only [Inv, Exited] at h <;>
    simp only [ne_eq, not_true_eq_false] at hp
  all_goals first
    | exact ⟨h.2.2.2.1, h.2.2.2.2.1⟩
    | exact ⟨h.2.2.1.2.1, h.2.2.1.2.2.1⟩
    | exact ⟨h.1.2.1, h.1.2.2.1⟩

/-- C6: in every run of `main`, whatever the initialisation calls and the status reads
return, a state in which the LED has been written comes after a read of the interrupt
status in the poll loop that saw the completion flag and after a comparison of `dst` with
`REFERENCE`, later than that read, which found them equal. When no read ever sees the
completion flag, no reachable state is at or past the verification step, and the LED is
never written. -/
theorem C6_led_only_after_completion_and_match (env : Env) :
    (∀ n, ((run env n).led = true ∨ Op.Cy_GPIO_Write ∈ (run env n).trace) →
      ComparedEqualBefore env n ∧ (run env n).pc = PC.idle ∧
      (run env n).dst = env.dstAfter ∧ verifyEq (run env n).dst = true) ∧
    ((∀ k, pollPending env (env.intrStatus k) = true) →
      ∀ n, ((run env n).pc = PC.halted ∨ rank (run env n).pc ≤ rank PC.poll) ∧
        (run env n).pc ≠ PC.verify ∧ (run env n).led = false ∧
        Op.Cy_GPIO_Write ∉ (run env n).trace) := by
  refine ⟨?_, ?_⟩
  · intro n hl
    obtain ⟨hpc, hled, hd, hv, _, _⟩ := inv_led env _ (inv_run env n) hl
    have hh := hist_run env n
    unfold Hist at hh
    rw [hpc] at hh
    exact ⟨hh hled, hpc, hd, hv⟩
  · intro hpend n
    have hinv := inv_run env n
    have hbound : (run env n).pc = PC.halted ∨ rank (run env n).pc ≤ rank PC.poll := by
      by_cases hp : (run env n).pc = PC.halted
      · exact Or.inl hp
      · right
        by_contra hr
        have h22 : rank PC.poll = 22 := rfl
        obtain ⟨_, h2⟩ := inv_past_poll env _ hinv (by omega) hp
        rw [hpend] at h2
        exact absurd h2 (by decide)
    have hnl : ¬((run env n).led = true ∨ Op.Cy_GPIO_Write ∈ (run env n).trace) := by
      intro hl
      obtain ⟨hpc, _, _, _, _, h2⟩ := inv_led env _ hinv hl
      rw [hpend] at h2
      exact absurd h2 (by decide)
    refine ⟨hbound, ?_, ?_, fun hm => hnl (Or.inr hm)⟩
    · intro hv
      rcases hbound with h | h
      · rw [h] at hv; exact absurd hv (by decide)
      · rw [hv] at h
        have h22 : rank PC.poll = 22 := rfl
        have h25 : rank PC.verify = 25 := rfl
        omega
    · cases hl : (run env n).led
      · rfl
      · exact absurd (Or.inl hl) hnl

theorem ok_not_halted (env : Env) (hok : okUpTo env 22) (n : Nat) :
    (run env n).pc ≠ PC.halted := by
  intro hp
  obtain ⟨_, _, _, Y, hY, _, _⟩ := inv_halted env _ (inv_run env n) hp
  have h1 := fails_rank env Y 22 hY hok
  have h2 := fails_rank_le env Y hY
  omega

theorem ok_rank (env : Env) (hok : okUpTo env 22) (n : Nat) (hn : n ≤ 22) :
    rank (run env n).pc = n := by
  rcases run_progress env n hn with h | h
  · exact absurd h (ok_not_halted env hok n)
  · exact h

theorem ok_run_21 (env : Env) (hok : okUpTo env 22) :
    (run env 21).pc = PC.swTrigger ∧ (run env 21).led = false ∧ (run env 21).dst = dstInit ∧
      (run env 21).polls = 0 ∧ (run env 21).trace = armOps := by
  have hr := ok_rank env hok 21 (by omega)
  have hpc : (run env 21).pc = PC.swTrigger := rank_inj _ _ hr
  obtain ⟨h1, h2, h3, h4⟩ := inv_prepoll env _ (inv_run env 21) (by omega)
  rw [hpc] at h4
  exact ⟨hpc, h1, h2, h3, h4⟩

theorem ok_run_22 (env : Env) (hok : okUpTo env 22) :
    (run env 22).pc = PC.poll ∧ (run env 22).led = false ∧ (run env 22).dst = dstInit ∧
      (run env 22).polls = 0 ∧ (run env 22).trace = linearOps := by
  obtain ⟨hpc, h1, h2, h3, h4⟩ := ok_run_21 env hok
  rw [show (22 : Nat) = 21 + 1 from rfl, run_succ]
  generalize run env 21 = s at hpc h1 h2 h3 h4
  obtain ⟨pc, dst, console, led, trace, polls⟩ := s
  simp only at hpc h1 h2 h3 h4
  subst hpc h1 h2 h3 h4
  exact ⟨rfl, rfl, rfl, rfl, rfl⟩

theorem step_poll_pending (env : Env) (s : State) (hp : s.pc = PC.poll)
    (hc : pollPending env (env.intrStatus s.polls) = true) :
    (step env s).pc = PC.poll ∧ (step env s).polls = s.polls + 1 := by
  obtain ⟨pc, dst, console, led, trace, polls⟩ := s
  simp only at hp hc
  subst hp
  simp [step, hc]

theorem step_poll_done (env : Env) (s : State) (hp : s.pc = PC.poll)
    (hc : pollPending env (env.intrStatus s.polls) = false) :
    (step env s).pc = PC.printFinished ∧ (step env s).polls = s.polls + 1 ∧
      (step env s).dst = env.dstAfter := by
  obtain ⟨pc, dst, console, led, trace, polls⟩ := s
  simp only at hp hc
  subst hp
  simp [step, hc]

theorem ok_polling (env : Env) (hok : okUpTo env 22) (k : Nat)
    (hk : ∀ j, j < k → pollPending env (env.intrStatus j) = true) :
    (run env (22 + k)).pc = PC.poll ∧ (run env (22 + k)).polls = k := by
  induction k with
  | zero =>
    obtain ⟨h1, _, _, h2, _⟩ := ok_run_22 env hok
    exact ⟨h1, h2⟩
  | succ k ih =>
    obtain ⟨h1, h2⟩ := ih (fun j hj => hk j (by omega))
    have := step_poll_pending env (run env (22 + k)) h1 (by rw [h2]; exact hk k (by omega))
    rw [← Nat.add_assoc, run_succ]
    exact ⟨this.1, by rw [this.2, h2]⟩

theorem pollPending_or (env : Env) (st other : Nat) (h : pollPending env st = false) :
    pollPending env (st ||| other) = false := by
  simp only [pollPending, bne_eq_false_iff_eq] at h ⊢
  apply Nat.eq_of_testBit_eq
  intro i
  have hi := congrArg (fun x => Nat.testBit x i) h
  simp only [Nat.testBit_and, Nat.testBit_or] at hi ⊢
  cases hs : st.testBit i <;> cases ho : other.testBit i <;>
    cases hm : env.CY_DMAC_INTR_COMPLETION.testBit i <;> simp_all

/-- C8: in a run of `main` whose initialisation steps all succeed, the poll loop is
entered after 22 statements. After `k` reads of the interrupt status that all lacked the
completion flag the program is still in the loop, about to make read `k`; when that read
has the flag (whatever other bits the value has), this very read leaves the loop. When
no read has the flag, the program is in the loop at every later statement: the loop has no
other way out. -/
theorem C8_poll_exits_at_first_completion (env : Env) (hok : allInitOk env) :
    (∀ k, (∀ j, j < k → pollPending env (env.intrStatus j) = true) →
      (run env (22 + k)).pc = PC.poll ∧ (run env (22 + k)).polls = k ∧
      (pollPending env (env.intrStatus k) = false →
        (run env (22 + k + 1)).pc = PC.printFinished ∧
        (run env (22 + k + 1)).polls = k + 1)) ∧
    ((∀ j, pollPending env (env.intrStatus j) = true) →
      ∀ n, 22 ≤ n → (run env n).pc = PC.poll) ∧
    (∀ st, pollPending env st = false ↔
      st &&& env.CY_DMAC_INTR_COMPLETION = env.CY_DMAC_INTR_COMPLETION) ∧
    (∀ st other, pollPending env st = false → pollPending env (st ||| other) = false) := by
  have hok22 := (allInitOk_iff env).mp hok
  refine ⟨?_, ?_, ?_, ?_⟩
  · intro k hk
    obtain ⟨h1, h2⟩ := ok_polling env hok22 k hk
    refine ⟨h1, h2, fun hc => ?_⟩
    have := step_poll_done env (run env (22 + k)) h1 (by rw [h2]; exact hc)
    rw [run_succ]
    exact ⟨this.1, by rw [this.2.1, h2]⟩
  · intro hall n hn
    obtain ⟨k, rfl⟩ := Nat.exists_eq_add_of_le hn
    exact (ok_polling env hok22 k (fun j _ => hall j)).1
  · intro st
    simp [pollPending]
  · exact fun st other h => pollPending_or env st other h

theorem step_rank_mono (env : Env) (s : State) (hr : 22 ≤ rank s.pc) (hp : s.pc ≠ PC.halted) :
    rank s.pc ≤ rank (step env s).pc ∧ (step env s).pc ≠ PC.halted := by
  obtain ⟨pc, dst, console, led, trace, polls⟩ := s
  cases pc <;> simp [rank] at hr <;> simp only [ne_eq, not_true_eq_false] at hp <;>
    simp only [step, State.call, State.callChecked, State.print] <;>
    (try split_ifs) <;> simp [rank]

theorem ok_rank_ge (env : Env) (hok : okUpTo env 22) (n : Nat) (hn : 22 ≤ n) :
    22 ≤ rank (run env n).pc := by
  obtain ⟨k, rfl⟩ := Nat.exists_eq_add_of_le hn
  induction k with
  | zero => rw [Nat.add_zero, ok_rank env hok 22 (le_refl _)]
  | succ k ih =>
    rw [← Nat.add_assoc, run_succ]
    have := step_rank_mono env (run env (22 + k)) (ih (by omega)) (ok_not_halted env hok _)
    omega

theorem ok_rank_step (env : Env) (hok : okUpTo env 22) (n : Nat) :
    rank (run env n).pc ≤ rank (run env (n + 1)).pc := by
  by_cases hn : n < 22
  · rw [ok_rank env hok n (by omega), ok_rank env hok (n + 1) (by omega)]
    omega
  · rw [run_succ]
    exact (step_rank_mono env _ (ok_rank_ge env hok n (by omega)) (ok_not_halted env hok n)).1

theorem inv_postpoll (env : Env) (s : State) (h : Inv env s) (hr : 22 ≤ rank s.pc)
    (hp : s.pc ≠ PC.halted) :
    s.trace = pollTrace s.polls ∨ s.trace = pollTrace s.polls ++ [Op.Cy_GPIO_Write] := by
  obtain ⟨pc, dst, console, led, trace, polls⟩ := s
  cases pc <;> simp [rank] at hr <;> simp only [Inv, Exited] at h <;>
    simp only [ne_eq, not_true_eq_false] at hp
  case idle =>
    rcases h.2 with ⟨_, _, h3⟩ | ⟨_, _, h3⟩
    · exact Or.inr h3
    · exact Or.inl h3
  all_goals first
    | exact Or.inl h.2.2.1
    | exact Or.inl h.2.1

theorem split_unique {α : Type} (x : α) : ∀ (a b a2 b2 : List α),
    a ++ x :: b = a2 ++ x :: b2 → x ∉ a2 → x ∉ b2 → a = a2 ∧ b = b2 := by
  intro a
  induction a with
  | nil =>
    intro b a2 b2 h ha2 _
    cases a2 with
    | nil => simpa using h
    | cons y ys =>
      simp only [List.nil_append, List.cons_append, List.cons.injEq] at h
      exact absurd (by rw [h.1]; exact List.mem_cons_self _ _) ha2
  | cons z zs ih =>
    intro b a2 b2 h ha2 hb2
    cases a2 with
    | nil =>
      simp only [List.nil_append, List.cons_append, List.cons.injEq] at h
      exact absurd (by rw [← h.2]; simp) hb2
    | cons y ys =>
      simp only [List.cons_append, List.cons.injEq] at h
      obtain ⟨h1, h2⟩ := ih b ys b2 h.2 (fun hm => ha2 (List.mem_cons_of_mem _ hm)) hb2
      exact ⟨by rw [h.1, h1], h2⟩

theorem pollTrace_split (p : Nat) :
    pollTrace p = armOps ++ Op.Cy_TrigMux_SwTrigger ::
      List.replicate p Op.Cy_DMAC_Channel_GetInterruptStatus := by
  simp [pollTrace, linearOps, armOps]

theorem ok_trace_lt (env : Env) (hok : okUpTo env 22) (n : Nat) (hn : n < 22) :
    ∃ j, j ≤ 14 ∧ (run env n).trace = linearOps.take j := by
  have hr := ok_rank env hok n (by omega)
  obtain ⟨_, _, _, h4⟩ := inv_prepoll env _ (inv_run env n) (by omega)
  refine ⟨opsBefore (run env n).pc, ?_, h4⟩
  have := opsBefore_mono (run env n).pc PC.swTrigger (by rw [hr]; exact Nat.le_of_lt_succ hn)
    (by decide)
  exact this

theorem ok_trace_ge (env : Env) (hok : okUpTo env 22) (n : Nat) (hn : 22 ≤ n) :
    (run env n).trace = pollTrace (run env n).polls ∨
      (run env n).trace = pollTrace (run env n).polls ++ [Op.Cy_GPIO_Write] :=
  inv_postpoll env _ (inv_run env n) (ok_rank_ge env hok n hn) (ok_not_halted env hok n)

theorem ok_after_completion (env : Env) (hok : okUpTo env 22) (k : Nat)
    (hk : ∀ j, j < k → pollPending env (env.intrStatus j) = true)
    (hc : pollPending env (env.intrStatus k) = false) :
    (run env (22 + k + 3)).pc = PC.verify ∧ ∀ n, 22 + k + 6 ≤ n → (run env n).pc = PC.idle := by
  obtain ⟨h1, h2⟩ := ok_polling env hok k hk
  have h3 := (step_poll_done env (run env (22 + k)) h1 (by rw [h2]; exact hc)).1
  rw [← run_succ] at h3
  have hs1 : ∀ s : State, s.pc = PC.printFinished → (step env s).pc = PC.printDstAfter := by
    intro s hs; obtain ⟨pc, dst, console, led, trace, polls⟩ := s
    simp only at hs; subst hs; rfl
  have hs2 : ∀ s : State, s.pc = PC.printDstAfter → (step env s).pc = PC.verify := by
    intro s hs; obtain ⟨pc, dst, console, led, trace, polls⟩ := s
    simp only at hs; subst hs; rfl
  have hs3 : ∀ s : State, s.pc = PC.verify →
      (step env s).pc = PC.reportOk ∨ (step env s).pc = PC.reportFail := by
    intro s hs; obtain ⟨pc, dst, console, led, trace, polls⟩ := s
    simp only at hs; subst hs
    simp only [step]
    split_ifs
    · exact Or.inl rfl
    · exact Or.inr rfl
  have hs4 : ∀ s : State, s.pc = PC.reportOk → (step env s).pc = PC.ledOn := by
    intro s hs; obtain ⟨pc, dst, console, led, trace, polls⟩ := s
    simp only at hs; subst hs; rfl
  have hs5 : ∀ s : State, s.pc = PC.ledOn → (step env s).pc = PC.idle := by
    intro s hs; obtain ⟨pc, dst, console, led, trace, polls⟩ := s
    simp only at hs; subst hs; rfl
  have hs6 : ∀ s : State, s.pc = PC.reportFail → (step env s).pc = PC.idle := by
    intro s hs; obtain ⟨pc, dst, console, led, trace, polls⟩ := s
    simp only at hs; subst hs; rfl
  have hs7 : ∀ s : State, s.pc = PC.idle → (step env s).pc = PC.idle := by
    intro s hs; rw [step_idle env s hs]; exact hs
  have h4 := hs1 _ h3
  rw [← run_succ] at h4
  have h5 := hs2 _ h4
  rw [← run_succ] at h5
  have h6 : (run env (22 + k + 6)).pc = PC.idle := by
    rcases hs3 _ h5 with h | h
    · exact hs5 _ (hs4 _ h)
    · exact hs7 _ (hs6 _ h)
  refine ⟨h5, fun n hn => ?_⟩
  rw [run_idle env (22 + k + 6) n hn h6]
  exact h6

/-- C7: in a run of `main` whose initialisation steps all succeed, the first 22 statements
are executed one after the other in source order and the program point never moves
backwards afterwards. The software trigger is call 15, made by statement 22: before it
the calls are exactly the bring-up calls followed by descriptor init, set source address,
channel init, set descriptor, channel enable and controller enable, with no read of the
interrupt status among them; after it come only reads of the interrupt status and the LED
write, never a second trigger. Once a status read has the completion flag, the program
goes on to the verification and then stays in the idle loop. -/
theorem C7_linear_single_trigger (env : Env) (hok : allInitOk env) :
    (∀ n, n ≤ 22 → rank (run env n).pc = n) ∧
    (∀ n, rank (run env n).pc ≤ rank (run env (n + 1)).pc) ∧
    ((run env 21).pc = PC.swTrigger ∧ (run env 21).trace = armOps) ∧
    ((run env 22).pc = PC.poll ∧ (run env 22).trace = armOps ++ [Op.Cy_TrigMux_SwTrigger]) ∧
    (∀ n, (run env n).trace.count Op.Cy_TrigMux_SwTrigger = if 22 ≤ n then 1 else 0) ∧
    (∀ n a b, (run env n).trace = a ++ Op.Cy_TrigMux_SwTrigger :: b →
      22 ≤ n ∧ a = armOps ∧
      ∀ op ∈ b, op = Op.Cy_DMAC_Channel_GetInterruptStatus ∨ op = Op.Cy_GPIO_Write) ∧
    (∀ k, (∀ j, j < k → pollPending env (env.intrStatus j) = true) →
      pollPending env (env.intrStatus k) = false →
      (run env (22 + k + 3)).pc = PC.verify ∧
      ∀ n, 22 + k + 6 ≤ n → (run env n).pc = PC.idle) := by
  have hok22 := (allInitOk_iff env).mp hok
  have h21 := ok_run_21 env hok22
  have h22 := ok_run_22 env hok22
  have hnotin : ∀ n, n < 22 → Op.Cy_TrigMux_SwTrigger ∉ (run env n).trace := by
    intro n hn
    obtain ⟨j, hj, ht⟩ := ok_trace_lt env hok22 n hn
    rw [ht]
    exact not_mem_take_linearOps j hj _ (Or.inl rfl)
  refine ⟨fun n hn => ok_rank env hok22 n hn, ok_rank_step env hok22, ⟨h21.1, h21.2.2.2.2⟩,
    ⟨h22.1, h22.2.2.2.2⟩, ?_, ?_, ok_after_completion env hok22⟩
  · intro n
    by_cases hn : 22 ≤ n
    · rw [if_pos hn]
      rcases ok_trace_ge env hok22 n hn with h | h <;> rw [h] <;>
        simp [pollTrace, linearOps, List.count_replicate]
    · rw [if_neg hn]
      exact List.count_eq_zero.mpr (hnotin n (by omega))
  · intro n a b hab
    have hn : 22 ≤ n := by
      by_contra hlt
      exact hnotin n (by omega) (by rw [hab]; simp)
    have harm : Op.Cy_TrigMux_SwTrigger ∉ armOps := by decide
    rcases ok_trace_ge env hok22 n hn with h | h
    · rw [h, pollTrace_split] at hab
      obtain ⟨ha, hb⟩ := split_unique _ _ _ _ _ hab.symm harm (by simp)
      refine ⟨hn, ha, fun op hop => ?_⟩
      rw [hb] at hop
      exact Or.inl (List.eq_of_mem_replicate hop)
    · rw [h, pollTrace_split, List.append_assoc, List.cons_append] at hab
      obtain ⟨ha, hb⟩ := split_unique _ _ _ _ _ hab.symm harm (by simp)
      refine ⟨hn, ha, fun op hop => ?_⟩
      rw [hb] at hop
      rcases List.mem_append.mp hop with h1 | h1
      · exact Or.inl (List.eq_of_mem_replicate h1)
      · exact Or.inr (by simpa using h1)

theorem addrOfDst_eq_iff (b i j : Nat) (hi : i < 8) (hj : j < 8) :
    addrOfDst b i = addrOfDst b j ↔ i = j :=
  ⟨addrOfDst_inj b i j hi hj, fun h => by rw [h]⟩

theorem verifyEq_reference : verifyEq REFERENCE = true := by decide

theorem xor_pow_ne (a k : Nat) : a ^^^ 2 ^ k ≠ a := by
  intro h
  have h1 : a ^^^ (a ^^^ 2 ^ k) = 2 ^ k := Nat.xor_cancel_left a (2 ^ k)
  rw [h, Nat.xor_self] at h1
  exact absurd h1.symm (Nat.pos_iff_ne_zero.mp (Nat.two_pow_pos k))

theorem runFrom_verify_ok (env : Env) (s : State) (hpc : s.pc = PC.verify)
    (hv : verifyEq s.dst = true) (n : Nat) (hn : 3 ≤ n) :
    runFrom env s n = { s with pc := PC.idle,
                               console := s.console ++ "Data was transferred correctly!\r\n",
                               led := true, trace := s.trace ++ [Op.Cy_GPIO_Write] } := by
  obtain ⟨k, rfl⟩ := Nat.exists_eq_add_of_le hn
  obtain ⟨pc, dst, console, led, trace, polls⟩ := s
  simp only at hpc hv
  subst hpc
  have h3 : runFrom env ⟨PC.verify, dst, console, led, trace, polls⟩ 3 =
      ⟨PC.idle, dst, console ++ "Data was transferred correctly!\r\n", true,
        trace ++ [Op.Cy_GPIO_Write], polls⟩ := by
    simp [runFrom, step, State.print, hv]
  rw [runFrom_add, h3]
  exact runFrom_fixed env _ rfl k

theorem runFrom_verify_fail (env : Env) (s : State) (hpc : s.pc = PC.verify)
    (hv : verifyEq s.dst = false) (n : Nat) (hn : 2 ≤ n) :
    runFrom env s n =
      { s with pc := PC.idle,
               console := s.console ++
                 "Data in dst array is not as expected. Something went wrong.\r\n" } := by
  obtain ⟨k, rfl⟩ := Nat.exists_eq_add_of_le hn
  obtain ⟨pc, dst, console, led, trace, polls⟩ := s
  simp only at hpc hv
  subst hpc
  have h2 : runFrom env ⟨PC.verify, dst, console, led, trace, polls⟩ 2 =
      ⟨PC.idle, dst,
        console ++ "Data in dst array is not as expected. Something went wrong.\r\n", led,
        trace, polls⟩ := by
    simp [runFrom, step, State.print, hv]
  rw [runFrom_add, h2]
  exact runFrom_fixed env _ rfl k

/-- C3: for every content of the eight-word `dst` when the verification step of `main`
runs, exactly one of two things happens. Either `dst` equals `REFERENCE`, and then the
program prints the success line, writes the LED on and from the third statement on sits
in the idle loop; or `dst` differs from `REFERENCE`, and then it prints the failure line,
makes no call (the LED is not written) and from the second statement on sits in the idle
loop. A `dst` that is `REFERENCE` with one bit of one word flipped differs from
`REFERENCE`, so it gets the failure outcome. -/
theorem C3_verification_outcomes (env : Env) (s : State) (hpc : s.pc = PC.verify)
    (hlen : s.dst.length = 8) (hw : ∀ w ∈ s.dst, w < 4294967296) :
    (s.dst = REFERENCE ↔ memBytes s.dst = memBytes REFERENCE) ∧
    ((s.dst = REFERENCE ∧ ∀ n, 3 ≤ n →
        runFrom env s n =
          { s with pc := PC.idle,
                   console := s.console ++ "Data was transferred correctly!\r\n",
                   led := true, trace := s.trace ++ [Op.Cy_GPIO_Write] }) ∨
     (s.dst ≠ REFERENCE ∧ ∀ n, 2 ≤ n →
        runFrom env s n =
          { s with pc := PC.idle,
                   console := s.console ++
                     "Data in dst array is not as expected. Something went wrong.\r\n" })) ∧
    (∀ i k, i < 8 → k < 32 →
      s.dst = REFERENCE.set i (REFERENCE.getD i 0 ^^^ 2 ^ k) →
      ∀ n, 2 ≤ n →
        runFrom env s n =
          { s with pc := PC.idle,
                   console := s.console ++
                     "Data in dst array is not as expected. Something went wrong.\r\n" }) := by
  have hiff := verifyEq_iff s.dst hlen hw
  have hfail : s.dst ≠ REFERENCE → verifyEq s.dst = false := by
    intro heq
    cases hv : verifyEq s.dst
    · rfl
    · exact absurd (hiff.mp hv) heq
  refine ⟨(memBytes_eq_iff s.dst hlen hw).symm, ?_, ?_⟩
  · by_cases heq : s.dst = REFERENCE
    · exact Or.inl ⟨heq, runFrom_verify_ok env s hpc (hiff.mpr heq)⟩
    · exact Or.inr ⟨heq, runFrom_verify_fail env s hpc (hfail heq)⟩
  · intro i k hi _ hs
    refine runFrom_verify_fail env s hpc (hfail fun heq => ?_)
    rw [heq] at hs
    have hget := congrArg (fun l => l.getD i 0) hs
    simp only at hget
    rw [List.getD_eq_getElem?_getD (REFERENCE.set i _), List.getElem?_set_self
      (by simpa [REFERENCE] using hi)] at hget
    exact xor_pow_ne _ _ hget.symm

theorem step_verifyPhase (env : Env) (s : State) (h : inVerifyPhase s.pc) :
    inVerifyPhase (step env s).pc ∧ (step env s).dst = s.dst := by
  obtain ⟨pc, dst, console, led, trace, polls⟩ := s
  rcases h with h | h | h | h | h <;> simp only at h <;> subst h <;>
    simp only [step, State.print] <;> (try split_ifs) <;> simp [inVerifyPhase]

theorem runFrom_verifyPhase (env : Env) (s : State) (h : inVerifyPhase s.pc) (n : Nat) :
    inVerifyPhase (runFrom env s n).pc ∧ (runFrom env s n).dst = s.dst := by
  induction n with
  | zero => exact ⟨h, rfl⟩
  | succ n ih =>
    have := step_verifyPhase env (runFrom env s n) ih.1
    exact ⟨this.1, by rw [← ih.2]; exact this.2⟩

theorem step_verify_pc (env : Env) (s : State) (hpc : s.pc = PC.verify) :
    (step env s).pc = if verifyEq s.dst then PC.reportOk else PC.reportFail := by
  obtain ⟨pc, dst, console, led, trace, polls⟩ := s
  simp only at hpc
  subst hpc
  rfl

/-- C9: the verification of `main` reads `dst` and the constant `REFERENCE` and changes
neither: `dst` has the same contents after every statement from the comparison on. The
branch taken depends on the contents of `dst` only, so two runs of the comparison on the
same contents take the same branch, and on a `dst` equal to `REFERENCE` the comparison
takes the success branch, also when it is run again at any later moment. -/
theorem C9_verification_pure (env : Env) (s : State) (hpc : s.pc = PC.verify) :
    (∀ n, (runFrom env s n).dst = s.dst) ∧
    (∀ (env2 : Env) (s2 : State), s2.pc = PC.verify → s2.dst = s.dst →
      (step env2 s2).pc = (step env s).pc) ∧
    (s.dst = REFERENCE →
      (step env s).pc = PC.reportOk ∧
      ∀ n, (step env { runFrom env s n with pc := PC.verify }).pc = PC.reportOk) := by
  have hdst := fun n => (runFrom_verifyPhase env s (Or.inl hpc) n).2
  refine ⟨hdst, ?_, ?_⟩
  · intro env2 s2 h2 hd
    rw [step_verify_pc env2 s2 h2, step_verify_pc env s hpc, hd]
  · intro href
    refine ⟨?_, fun n => ?_⟩
    · rw [step_verify_pc env s hpc, href, verifyEq_reference]; rfl
    · rw [step_verify_pc env _ rfl]
      simp only
      rw [hdst n, href, verifyEq_reference]; rfl

theorem runFrom_exit_ok (env : Env) (s : State) (hpc : s.pc = PC.printFinished)
    (hv : verifyEq s.dst = true) :
    (runFrom env s 5).pc = PC.idle ∧ (runFrom env s 5).led = true ∧
      (runFrom env s 5).console = s.console ++ "DMA transfer finished!\r\n" ++
        printArrayToUART (some s.dst) 8 (some "dst") ++ "Data was transferred correctly!\r\n" := by
  obtain ⟨pc, dst, console, led, trace, polls⟩ := s
  simp only at hpc hv
  subst hpc
  simp [runFrom, step, State.print, hv]

/-- C1: the scatter transfer, taken as writing each of the eight (target, value) pairs of
`src` in order to the slot of `dst` its target names, turns the all-zero `dst` of `main`
into `2, 3, 0, 6, 5, 4, 7, 1`, which is `REFERENCE` word for word, wherever `dst` lies in
memory. The comparison of `main` accepts that buffer: a run of `main` in which all
initialisation steps succeed and the DMA engine leaves this buffer behind ends in the idle
loop with the success line printed and the LED on. -/
theorem C1_scatter_yields_reference (dstAddr : Nat) :
    scatterTransfer dstAddr dstInit (pairsOf (src dstAddr)) = [2, 3, 0, 6, 5, 4, 7, 1] ∧
    scatterTransfer dstAddr dstInit (pairsOf (src dstAddr)) = REFERENCE ∧
    verifyEq (scatterTransfer dstAddr dstInit (pairsOf (src dstAddr))) = true ∧
    (∀ (env : Env) (k : Nat), allInitOk env →
      env.dstAfter = scatterTransfer dstAddr dstInit (pairsOf (src dstAddr)) →
      (∀ j, j < k → pollPending env (env.intrStatus j) = true) →
      pollPending env (env.intrStatus k) = false →
      (run env (22 + k + 6)).pc = PC.idle ∧ (run env (22 + k + 6)).led = true ∧
      (run env (22 + k + 6)).console = (run env (22 + k + 1)).console ++
        "DMA transfer finished!\r\n" ++ printArrayToUART (some REFERENCE) 8 (some "dst") ++
        "Data was transferred correctly!\r\n") := by
  have hsc := scatterTransfer_src dstAddr
  refine ⟨hsc, hsc, by rw [hsc]; exact verifyEq_reference, ?_⟩
  intro env k hok hd hk hc
  have hok22 := (allInitOk_iff env).mp hok
  obtain ⟨h1, h2⟩ := ok_polling env hok22 k hk
  obtain ⟨h3, _, h5⟩ := step_poll_done env (run env (22 + k)) h1 (by rw [h2]; exact hc)
  rw [← run_succ] at h3 h5
  rw [hd, hsc] at h5
  have h6 := runFrom_exit_ok env (run env (22 + k + 1)) h3 (by rw [h5]; exact verifyEq_reference)
  rw [← run_add, h5] at h6
  exact h6

/-- C2: for the `src` table of `main`, wherever `dst` lies in memory, and every index `i`
below eight: exactly one of the eight pairs of `src` has the address of `dst[i]` as its
target, the eight targets are the addresses of the eight slots of `dst` in some order, and
after the scatter transfer `dst[i]` holds the value of the pair whose target is the address
of `dst[i]`. -/
theorem C2_targets_permutation (dstAddr : Nat) (i : Nat) (hi : i < 8) :
    (pairsOf (src dstAddr)).length = 8 ∧
    (pairsOf (src dstAddr)).countP (fun p => p.1 == addrOfDst dstAddr i) = 1 ∧
    ((pairsOf (src dstAddr)).map Prod.fst).Perm
      ((List.range 8).map (addrOfDst dstAddr)) ∧
    (∀ p ∈ pairsOf (src dstAddr), p.1 = addrOfDst dstAddr i →
      (scatterTransfer dstAddr dstInit (pairsOf (src dstAddr)))[i]? = some p.2) := by
  have hr : List.range 8 = [0, 1, 2, 3, 4, 5, 6, 7] := by decide
  refine ⟨by simp [src, pairsOf], ?_, ?_, ?_⟩
  · interval_cases i <;>
      simp [src, pairsOf, List.countP_cons, addrOfDst_eq_iff]
  · rw [hr]
    simp only [src, pairsOf, List.map_cons, List.map_nil]
    exact (by decide :
      ([2, 7, 0, 1, 5, 4, 3, 6] : List Nat).Perm [0, 1, 2, 3, 4, 5, 6, 7]).map
        (addrOfDst dstAddr)
  · rw [scatterTransfer_src]
    interval_cases i <;>
      simp [src, pairsOf, addrOfDst_eq_iff, REFERENCE]

theorem set_getD_self : ∀ (d : List Nat) (i : Nat), d.set i (d.getD i 0) = d
  | [], _ => rfl
  | _ :: _, 0 => rfl
  | x :: xs, i + 1 => by
    have h := set_getD_self xs i
    simp only [List.getD_cons_succ, List.set_cons_succ, h]

theorem scatterSelected_src (b : Nat) (sel : Nat → Bool) :
    scatterSelected b sel 0 dstInit (pairsOf (src b)) = selectedResult sel := by
  have hw : ∀ (c : Bool) (d : List Nat) (i v : Nat), d.length = 8 → i < 8 →
      (if c = true then scatterWrite b d (addrOfDst b i) v else d)
        = d.set i (if c = true then v else d.getD i 0) := by
    intro c d i v hl hi
    cases c
    · simp only [Bool.false_eq_true, if_false]
      exact (set_getD_self d i).symm
    · simp only [if_true]
      exact scatterWrite_slot b d i v hl hi
  simp only [src, pairsOf, scatterSelected, dstInit]
  rw [hw _ _ 2 0 (by simp) (by omega)]
  rw [hw _ _ 7 1 (by simp) (by omega)]
  rw [hw _ _ 0 2 (by simp) (by omega)]
  rw [hw _ _ 1 3 (by simp) (by omega)]
  rw [hw _ _ 5 4 (by simp) (by omega)]
  rw [hw _ _ 4 5 (by simp) (by omega)]
  rw [hw _ _ 3 6 (by simp) (by omega)]
  rw [hw _ _ 6 7 (by simp) (by omega)]
  simp [selectedResult]

theorem selectedResult_eq_iff (sel : Nat → Bool) :
    selectedResult sel = REFERENCE ↔ ∀ k, 1 ≤ k → k < 8 → sel k = true := by
  constructor
  · intro h k h1 h8
    simp [selectedResult, REFERENCE] at h
    obtain ⟨h2, h3, h6, h5, h4, h7, h1'⟩ := h
    interval_cases k <;> assumption
  · intro h
    simp [selectedResult, REFERENCE, h 1, h 2, h 3, h 4, h 5, h 6, h 7]

/-- C10: for every choice of which of the eight pairs of `src` are written (pair `k` is
written when `sel k` holds), the buffer obtained from the all-zero `dst` passes the
comparison with `REFERENCE` exactly when pairs 1 to 7 are all written; pair 0 writes the
zero its slot already holds, so whether it is written makes no difference to the buffer.
The untouched all-zero `dst` fails the comparison, and a buffer that passes differs from
the all-zero `dst` in exactly seven slots. -/
theorem C10_partial_transfer_detected (dstAddr : Nat) (sel : Nat → Bool) :
    (verifyEq (scatterSelected dstAddr sel 0 dstInit (pairsOf (src dstAddr))) = true ↔
      ∀ k, 1 ≤ k → k < 8 → sel k = true) ∧
    scatterSelected dstAddr sel 0 dstInit (pairsOf (src dstAddr)) =
      scatterSelected dstAddr (fun k => k == 0 || sel k) 0 dstInit (pairsOf (src dstAddr)) ∧
    scatterSelected dstAddr (fun _ => false) 0 dstInit (pairsOf (src dstAddr)) = dstInit ∧
    verifyEq dstInit = false ∧
    (∀ d : List Nat, d.length = 8 → (∀ w ∈ d, w < 4294967296) → verifyEq d = true →
      changedSlots d = 7) := by
  refine ⟨?_, ?_, ?_, by decide, ?_⟩
  · rw [scatterSelected_src, ← selectedResult_eq_iff]
    apply verifyEq_iff
    · simp [selectedResult]
    · intro w hw
      simp only [selectedResult, List.mem_cons, List.mem_singleton, List.not_mem_nil,
        or_false] at hw
      rcases hw with h | h | h | h | h | h | h | h <;> rw [h] <;> (try split_ifs) <;> omega
  · rw [scatterSelected_src, scatterSelected_src]
    simp [selectedResult]
  · rw [scatterSelected_src]
    simp [selectedResult, dstInit]
  · intro d hl hw hv
    rw [(verifyEq_iff d hl hw).mp hv]
    decide


/-- C5 fails as stated: for the all-zero `dst` that `main` dumps before the transfer,
`printArrayToUART` prints every element as `0`, without the `0x` marker that the stated
format puts in front of every element. -/
theorem C5_zero_elements_lack_marker :
    printArrayToUART (some dstInit) 8 (some "dst")
        = "Data of dst: \x7b0, 0, 0, 0, 0, 0, 0, 0\x7d\r\n" ∧
    specDump "dst" dstInit = "Data of dst: \x7b0x0, 0x0, 0x0, 0x0, 0x0, 0x0, 0x0, 0x0\x7d\r\n" ∧
    printArrayToUART (some dstInit) 8 (some "dst") ≠ specDump "dst" dstInit := by
  have h := printArrayToUART_eq dstInit "dst" (by decide)
  rw [show dstInit.length = 8 from rfl] at h
  rw [h]
  decide

/-- C5, amended: for every non-empty array of `num` elements and every name,
`printArrayToUART` prints `Data of <name>: {`, the elements in array order separated by
`, `, then `}` and CR LF, where a nonzero element is printed in hexadecimal with the `0x`
marker and a zero element is printed as `0`. When no element is zero this is the stated
format. -/
theorem C5_dump_format (array : List Nat) (name : String) (hne : array ≠ []) :
    printArrayToUART (some array) array.length (some name)
      = "Data of " ++ name ++ ": \x7b" ++ joinComma (array.map fmtHashX) ++ "\x7d\r\n" ∧
    (∀ v, 0 < v → v < 4294967296 → fmtHashX v = "0x" ++ hexDigits v) ∧
    fmtHashX 0 = "0" ∧
    ((∀ v ∈ array, 0 < v ∧ v < 4294967296) →
      printArrayToUART (some array) array.length (some name) = specDump name array) := by
  have hfmt : ∀ v, 0 < v → v < 4294967296 → fmtHashX v = "0x" ++ hexDigits v := by
    intro v h0 h1
    simp only [fmtHashX]
    rw [Nat.mod_eq_of_lt h1, if_neg (by omega)]
  refine ⟨printArrayToUART_eq array name hne, hfmt, by decide, fun hall => ?_⟩
  rw [printArrayToUART_eq array name hne, specDump]
  have hmap : array.map fmtHashX = array.map (fun v => "0x" ++ hexDigits v) :=
    List.map_congr_left (fun v hv => hfmt v (hall v hv).1 (hall v hv).2)
  rw [hmap]

theorem C5_dump_format_witness :
    ([0x28001048, 0, 7] : List Nat) ≠ [] ∧
    printArrayToUART (some [0x28001048, 0, 7]) 3 (some "src")
      = "Data of src: \x7b0x28001048, 0, 0x7\x7d\r\n" :=
  ⟨by decide, (C5_dump_format [0x28001048, 0, 7] "src" (by decide)).1.trans (by decide)⟩

theorem C2_targets_permutation_witness :
    (3 : Nat) < 8 ∧
    (scatterTransfer 0x28001040 dstInit (pairsOf (src 0x28001040)))[3]? = some 6 :=
  ⟨by decide,
    (C2_targets_permutation 0x28001040 3 (by decide)).2.2.2 (addrOfDst 0x28001040 3, 6)
      (by decide) rfl⟩

theorem C3_verification_outcomes_witness :
    stVerifyBad.pc = PC.verify ∧ stVerifyBad.dst.length = 8 ∧
    (∀ w ∈ stVerifyBad.dst, w < 4294967296) ∧
    stVerifyBad.dst = REFERENCE.set 3 (REFERENCE.getD 3 0 ^^^ 2 ^ 0) ∧
    (runFrom envOk stVerifyBad 2).pc = PC.idle ∧ (runFrom envOk stVerifyBad 2).led = false :=
  ⟨rfl, rfl, by decide, by decide,
    by rw [(C3_verification_outcomes envOk stVerifyBad rfl rfl (by decide)).2.2 3 0 (by decide)
      (by decide) (by decide) 2 (le_refl 2)],
    by rw [(C3_verification_outcomes envOk stVerifyBad rfl rfl (by decide)).2.2 3 0 (by decide)
      (by decide) (by decide) 2 (le_refl 2)]; rfl⟩

theorem C4_init_failure_halts_witness :
    failsAt envDescFail PC.descriptorInit = true ∧
    (run envDescFail 15).pc = PC.halted ∧
    Op.Cy_TrigMux_SwTrigger ∉ (run envDescFail 15).trace :=
  ⟨by decide,
    (C4_init_failure_halts envDescFail PC.descriptorInit (by decide)).2.1 15 (by decide),
    ((C4_init_failure_halts envDescFail PC.descriptorInit (by decide)).2.2.2.1 15).1⟩

theorem C7_linear_single_trigger_witness :
    allInitOk envOk ∧ (run envOk 22).pc = PC.poll ∧
    (run envOk 40).trace.count Op.Cy_TrigMux_SwTrigger = 1 :=
  ⟨⟨rfl, rfl, rfl, rfl, rfl, rfl⟩,
    (C7_linear_single_trigger envOk ⟨rfl, rfl, rfl, rfl, rfl, rfl⟩).2.2.2.1.1,
    (C7_linear_single_trigger envOk ⟨rfl, rfl, rfl, rfl, rfl, rfl⟩).2.2.2.2.1 40⟩

theorem C8_poll_exits_at_first_completion_witness :
    allInitOk envOk ∧ (run envOk 25).pc = PC.poll ∧ (run envOk 26).pc = PC.printFinished :=
  ⟨⟨rfl, rfl, rfl, rfl, rfl, rfl⟩,
    ((C8_poll_exits_at_first_completion envOk ⟨rfl, rfl, rfl, rfl, rfl, rfl⟩).1 3
      (by decide)).1,
    (((C8_poll_exits_at_first_completion envOk ⟨rfl, rfl, rfl, rfl, rfl, rfl⟩).1 3
      (by decide)).2.2 (by decide)).1⟩

theorem C9_verification_pure_witness :
    stVerifyOk.pc = PC.verify ∧ (step envOk stVerifyOk).pc = PC.reportOk :=
  ⟨rfl, ((C9_verification_pure envOk stVerifyOk rfl).2.2 rfl).1⟩

end MdmaScatter
